import Mathlib

/-!
Verification of the contact-assembly core of `src/cpp/Contact.cpp`
(dolfinx_contact). Cell, facet and dof indices are modelled as `Nat`;
scalar matrix/vector values (PetscScalar) as `Int`; adjacency lists and
dof maps as functions into `List Nat`; the global vector as a function
`Nat → Int` updated pointwise.
-/

set_option maxHeartbeats 1000000

/-- Removal of consecutive duplicate entries, keeping the first entry of
each run: models `std::unique` followed by `erase` (Contact.cpp lines 42-43
and 134-135). -/
def uniqueAdj : List Nat → List Nat
  | [] => []
  | [a] => [a]
  | a :: b :: t => if a = b then uniqueAdj (b :: t) else a :: uniqueAdj (b :: t)

/-- Ascending integer sort followed by removal of consecutive duplicates:
models `dolfinx::radix_sort` (an ascending integer-key sort) followed by
`std::unique`/`erase`. -/
def dedupSorted (l : List Nat) : List Nat :=
  uniqueAdj (List.insertionSort (· ≤ ·) l)

/-- Embedding of `compute_linked_cells` (Contact.cpp lines 22-44): map each
candidate submesh facet through the facet→(cell, local-facet) adjacency
(`sub_to_parent`, taking component 0 of the pair) and the submesh-cell→parent-
cell map, then sort ascending and remove duplicates. -/
def compute_linked_cells (submesh_facets : List Nat)
    (sub_to_parent : Nat → List Nat) (parent_cells : Nat → Nat) : List Nat :=
  dedupSorted (submesh_facets.map (fun facet => parent_cells (sub_to_parent facet).headI))

/-- The transform step of `compute_linked_cells` with the structural
precondition of line 36 (`assert(facet_pair.size() == 2)`) made explicit:
`none` models the fatal assertion failure. -/
def mapToParents (sub_to_parent : Nat → List Nat) (parent_cells : Nat → Nat) :
    List Nat → Option (List Nat)
  | [] => some []
  | f :: t =>
    if (sub_to_parent f).length = 2 then
      (mapToParents sub_to_parent parent_cells t).map
        (fun r => parent_cells (sub_to_parent f).headI :: r)
    else none

/-- `compute_linked_cells` with the assertion of line 36 checked. -/
def compute_linked_cells_checked (submesh_facets : List Nat)
    (sub_to_parent : Nat → List Nat) (parent_cells : Nat → Nat) : Option (List Nat) :=
  (mapToParents sub_to_parent parent_cells submesh_facets).map dedupSorted

/-- Embedding of the return expression of `Contact::coefficients_size`
(Contact.cpp lines 94-95). -/
def coefficients_size (num_q_points gdim ndofs_cell bs max_links : Nat) : Nat :=
  3 + num_q_points * (2 * gdim + ndofs_cell * bs * max_links + bs) + ndofs_cell * bs

/-- `Contact::coefficients_size` with `max_links` computed as the maximum of
the two per-surface values `_max_links` (Contact.cpp lines 91-92). -/
def coefficients_size_surfaces (num_q_points gdim ndofs_cell bs ml0 ml1 : Nat) : Nat :=
  coefficients_size num_q_points gdim ndofs_cell bs (max ml0 ml1)

/-- The per-origin-surface inputs of `Contact::assemble_matrix` and
`Contact::assemble_vector`: the active (cell, local-facet) pairs of the
origin surface, the correspondence map `_facet_maps[origin]`, the opposite
submesh's facet→(cell, local-facet) map and submesh-cell→parent-cell map,
the function-space dof map, the uniform per-cell dof count and the dof block
size. -/
structure ContactSide where
  activeFacets : List (Nat × Nat)
  corr : Nat → List Nat
  facetMap : Nat → List Nat
  parentCells : Nat → Nat
  dofmap : Nat → List Nat
  ndofs : Nat
  bs : Nat

/-- Owning cell of active facet `i` (first component of the pair). -/
def facetCell (st : ContactSide) (i : Nat) : Nat := (st.activeFacets.getD i (0, 0)).1

/-- Local facet index of active facet `i` (second component of the pair). -/
def facetLocalIndex (st : ContactSide) (i : Nat) : Nat := (st.activeFacets.getD i (0, 0)).2

/-- The linked parent cells of active facet `i` (Contact.cpp lines 195-197
and 284-286). -/
def linkedCellsAt (st : ContactSide) (i : Nat) : List Nat :=
  compute_linked_cells (st.corr i) st.facetMap st.parentCells

/-- One scalar `+=` into the global vector at a single position
(Contact.cpp lines 303 and 309). -/
def addEntry (b : Nat → Int) (pos : Nat) (v : Int) : Nat → Int :=
  fun idx => if idx = pos then b idx + v else b idx

/-- Scatter-add of one local block into the global vector: the nested loops
over local dof `j` and component `k` writing to `bs * dofs[j] + k`
(Contact.cpp lines 301-303 and 307-309). -/
def scatterBlock (bs ndofs : Nat) (dofs : List Nat) (vals : Nat → Int)
    (b : Nat → Int) : Nat → Int :=
  (List.range ndofs).foldl
    (fun b1 j => (List.range bs).foldl
      (fun b2 k => addEntry b2 (bs * dofs.getD j 0 + k) (vals (bs * j + k))) b1)
    b

/-- Body of the facet loop of `Contact::assemble_vector` (lines 272-311) for
facet `i`. The external kernel's output on the freshly zeroed blocks is
abstracted as `kb i j e` (facet `i`, block `j`, flat entry `e`); block 0 is
scattered into the owning cell's dofs and block `l + 1` into linked cell
`l`'s dofs, exactly as in the source loop. -/
def assembleVectorFacet (st : ContactSide) (kb : Nat → Nat → Nat → Int)
    (b : Nat → Int) (i : Nat) : Nat → Int :=
  (List.range (linkedCellsAt st i).length).foldl
    (fun b1 l =>
      scatterBlock st.bs st.ndofs (st.dofmap ((linkedCellsAt st i).getD l 0)) (kb i (l + 1)) b1)
    (scatterBlock st.bs st.ndofs (st.dofmap (facetCell st i)) (kb i 0) b)

/-- `Contact::assemble_vector`, processing the facets whose indices are
listed in `order` (the source runs `order = List.range
st.activeFacets.length`). -/
def assemble_vector (st : ContactSide) (kb : Nat → Nat → Nat → Int)
    (order : List Nat) (b : Nat → Int) : Nat → Int :=
  order.foldl (assembleVectorFacet st kb) b

/-- Net additive contribution of one scattered block at global index `idx`. -/
def blockDelta (bs ndofs : Nat) (dofs : List Nat) (vals : Nat → Int) (idx : Nat) : Int :=
  ((List.range ndofs).map (fun j =>
    ((List.range bs).map (fun k =>
      if idx = bs * dofs.getD j 0 + k then vals (bs * j + k) else 0)).sum)).sum

/-- Net additive contribution of facet `i` at global index `idx`. -/
def facetDelta (st : ContactSide) (kb : Nat → Nat → Nat → Int) (i idx : Nat) : Int :=
  blockDelta st.bs st.ndofs (st.dofmap (facetCell st i)) (kb i 0) idx
  + ((List.range (linkedCellsAt st i).length).map (fun l =>
      blockDelta st.bs st.ndofs (st.dofmap ((linkedCellsAt st i).getD l 0))
        (kb i (l + 1)) idx)).sum

/-- Self-block (`bes[0]`) contribution of facet `i` at dof `dof`,
component `k`. -/
def selfContrib (st : ContactSide) (kb : Nat → Nat → Nat → Int) (i dof k : Nat) : Int :=
  ((List.range st.ndofs).map (fun j =>
    if (st.dofmap (facetCell st i)).getD j 0 = dof then kb i 0 (st.bs * j + k) else 0)).sum

/-- Linked-block (`bes[l + 1]`) contribution of facet `i` at dof `dof`,
component `k`. -/
def linkedContrib (st : ContactSide) (kb : Nat → Nat → Nat → Int) (i dof k : Nat) : Int :=
  ((List.range (linkedCellsAt st i).length).map (fun l =>
    ((List.range st.ndofs).map (fun j =>
      if (st.dofmap ((linkedCellsAt st i).getD l 0)).getD j 0 = dof
      then kb i (l + 1) (st.bs * j + k) else 0)).sum)).sum

/-- Global index `idx` is reachable by the scatter-adds of the facets listed
in `order`: it decomposes as `bs * dof + k` for a dof of some active facet's
owning cell or of one of that facet's linked cells. -/
def touchedIndex (st : ContactSide) (order : List Nat) (idx : Nat) : Prop :=
  ∃ i ∈ order, ∃ dof k, k < st.bs ∧ idx = st.bs * dof + k
    ∧ (dof ∈ st.dofmap (facetCell st i) ∨ ∃ l ∈ linkedCellsAt st i, dof ∈ st.dofmap l)

/-- Concrete two-facet contact side used by the witnesses: facet 0 (cell 0,
local facet 0) has two candidates that both resolve to parent cell 5, facet 1
(cell 1, local facet 1) has none; each cell `c` carries the two dofs
`2c, 2c+1`, block size 1. -/
def exampleSide : ContactSide where
  activeFacets := [(0, 0), (1, 1)]
  corr := fun i => if i = 0 then [0, 1] else []
  facetMap := fun f => [f, 0]
  parentCells := fun _ => 5
  dofmap := fun c => [2 * c, 2 * c + 1]
  ndofs := 2
  bs := 1

/-- Concrete kernel-output abstraction used by the witnesses. -/
def exampleKb : Nat → Nat → Nat → Int := fun i j e => 1 + (i : Int) + j + e

/-- The per-surface data of `Contact::create_petsc_matrix` (Contact.cpp
lines 109-140): for each surface index `s` (0 or 1), the (cell, local-facet)
pairs `_cell_facet_pairs[s]`, the correspondence map `_facet_maps[s]`, the
opposite submesh's facet→(cell, facet) map and submesh-cell→parent-cell map
(`_submeshes[_opposites[s]]`), and the shared dof map. -/
structure SparsityData where
  pairs : Nat → List (Nat × Nat)
  corr : Nat → Nat → List Nat
  fmap : Nat → Nat → List Nat
  pcells : Nat → Nat → Nat
  dofmap : Nat → List Nat

/-- All (row, col) index pairs covered by one `pattern.insert(rows, cols)`
call. -/
def crossPairs (rows cols : List Nat) : List (Nat × Nat) :=
  rows.flatMap (fun r => cols.map (fun c => (r, c)))

/-- The deduplicated dofs of all cells linked to facet `i` of surface `s`
(Contact.cpp lines 122-135). -/
def linkedDofs (sd : SparsityData) (s i : Nat) : List Nat :=
  dedupSorted ((sd.corr s i).flatMap
    (fun link => sd.dofmap (sd.pcells s ((sd.fmap s link).headI))))

/-- The linked-cell set of facet `i` of surface `s`, resolved as in
`compute_linked_cells`. -/
def linkedCellsSurf (sd : SparsityData) (s i : Nat) : List Nat :=
  compute_linked_cells (sd.corr s i) (sd.fmap s) (sd.pcells s)

/-- Owning cell of facet `i` of surface `s`. -/
def surfCell (sd : SparsityData) (s i : Nat) : Nat := ((sd.pairs s).getD i (0, 0)).1

/-- The pairs inserted for facet `i` of surface `s`: both
`(cell_dofs × linked_dofs)` and `(linked_dofs × cell_dofs)` (Contact.cpp
lines 137-138). -/
def facetInserts (sd : SparsityData) (s i : Nat) : List (Nat × Nat) :=
  crossPairs (sd.dofmap (surfCell sd s i)) (linkedDofs sd s i)
  ++ crossPairs (linkedDofs sd s i) (sd.dofmap (surfCell sd s i))

/-- All cross-surface coupling pairs inserted by `create_petsc_matrix`:
the loop over both surfaces and, per surface, over its facets. -/
def insertedPairs (sd : SparsityData) : List (Nat × Nat) :=
  ([0, 1] : List Nat).flatMap (fun s =>
    (List.range (sd.pairs s).length).flatMap (fun i => facetInserts sd s i))

/-- The finished sparsity pattern: the base pattern of the bilinear form
extended with the cross-surface coupling pairs. -/
def patternEntries (sd : SparsityData) (base : List (Nat × Nat)) : List (Nat × Nat) :=
  base ++ insertedPairs sd

/-- Concrete sparsity data used by the witness: surface 0 has one facet
owned by cell 0, with a single candidate resolving to parent cell 5;
surface 1 has no facets; cell `c` carries the dofs `2c, 2c+1`. -/
def exampleSparsity : SparsityData where
  pairs := fun s => if s = 0 then [(0, 0)] else []
  corr := fun s i => if s = 0 ∧ i = 0 then [0] else []
  fmap := fun _ f => [f, 0]
  pcells := fun _ _ => 5
  dofmap := fun c => [2 * c, 2 * c + 1]

/-- The sequence of `mat_set` calls issued by the facet-`i` body of
`Contact::assemble_matrix` (Contact.cpp lines 218-227): the self×self block
0, then for each linked cell `j` the self×linked block `3j+1`, the
linked×self block `3j+2` and the linked×linked block `3j+3`. The kernel
output on the zeroed blocks is abstracted as `kb i blockIdx`. -/
def facetMatCalls (st : ContactSide) (kb : Nat → Nat → Nat → Int) (i : Nat) :
    List (List Nat × List Nat × (Nat → Int)) :=
  (st.dofmap (facetCell st i), st.dofmap (facetCell st i), kb i 0)
  :: (List.range (linkedCellsAt st i).length).flatMap (fun j =>
      [(st.dofmap (facetCell st i), st.dofmap ((linkedCellsAt st i).getD j 0),
        kb i (3 * j + 1)),
       (st.dofmap ((linkedCellsAt st i).getD j 0), st.dofmap (facetCell st i),
        kb i (3 * j + 2)),
       (st.dofmap ((linkedCellsAt st i).getD j 0), st.dofmap ((linkedCellsAt st i).getD j 0),
        kb i (3 * j + 3))])

/-- One `std::fill(Aes[m].begin(), Aes[m].end(), 0)` on the local element
block set, a block being modelled as a function from flat entry to value. -/
def setBlockZero (A : Nat → Nat → Int) (m : Nat) : Nat → Nat → Int :=
  fun blk => if blk = m then (fun _ => 0) else A blk

/-- The zero-filling loop of `Contact::assemble_matrix` (Contact.cpp lines
201-207): block 0 is filled with zeros, then for every linked cell `j` the
blocks `3j+1`, `3j+2` and `3j+3`, in that order. -/
def zeroBlocks (Aes : Nat → Nat → Int) (numLinked : Nat) : Nat → Nat → Int :=
  (List.range numLinked).foldl
    (fun A j =>
      setBlockZero (setBlockZero (setBlockZero A (3 * j + 1)) (3 * j + 2)) (3 * j + 3))
    (setBlockZero Aes 0)

/-- The neutral orientation/permutation indicator `std::uint8_t perm = 0`
(Contact.cpp lines 173 and 257), passed unchanged to every kernel call. -/
def permValue : Nat := 0

/-- Arguments of one kernel invocation as issued by the assembly loops. -/
structure KernelCall where
  facet : Nat
  coeffsOffset : Nat
  localIndex : Nat
  perm : Nat
  numLinked : Nat
deriving DecidableEq

/-- The kernel invocations of `Contact::assemble_matrix` (Contact.cpp lines
209-210), one per active facet: coefficient slice offset `i * cstride`, the
facet's local index, the orientation indicator `permValue` and the
linked-cell count. -/
def matrixKernelCalls (st : ContactSide) (cstride : Nat) : List KernelCall :=
  (List.range st.activeFacets.length).map (fun i =>
    ⟨i, i * cstride, facetLocalIndex st i, permValue, (linkedCellsAt st i).length⟩)

/-- The kernel invocations of `Contact::assemble_vector` (Contact.cpp lines
293-294), one per active facet, with the same argument discipline. -/
def vectorKernelCalls (st : ContactSide) (cstride : Nat) : List KernelCall :=
  (List.range st.activeFacets.length).map (fun i =>
    ⟨i, i * cstride, facetLocalIndex st i, permValue, (linkedCellsAt st i).length⟩)

theorem mem_uniqueAdj (x : Nat) : ∀ l : List Nat, x ∈ uniqueAdj l ↔ x ∈ l
  | [] => by simp [uniqueAdj]
  | [a] => by simp [uniqueAdj]
  | a :: b :: t => by
    by_cases hab : a = b
    · subst hab
      have h1 : uniqueAdj (a :: a :: t) = uniqueAdj (a :: t) := by
        rw [uniqueAdj]
        simp
      rw [h1, mem_uniqueAdj x (a :: t), List.mem_cons, List.mem_cons, List.mem_cons]
      tauto
    · simp only [uniqueAdj, if_neg hab, List.mem_cons, mem_uniqueAdj x (b :: t)]

theorem uniqueAdj_sorted : ∀ l : List Nat, l.Sorted (· ≤ ·) → (uniqueAdj l).Sorted (· < ·)
  | [], _ => by simp [uniqueAdj]
  | [_], _ => by simp [uniqueAdj]
  | a :: b :: t, h => by
    rw [List.sorted_cons] at h
    by_cases hab : a = b
    · simpa [uniqueAdj, hab] using uniqueAdj_sorted (b :: t) h.2
    · have hlt : ∀ x ∈ uniqueAdj (b :: t), a < x := by
        intro x hx
        rw [mem_uniqueAdj] at hx
        rcases List.mem_cons.mp hx with rfl | hxt
        · exact lt_of_le_of_ne (h.1 x hx) hab
        · have hbx : b ≤ x := (List.sorted_cons.mp h.2).1 x hxt
          exact lt_of_lt_of_le (lt_of_le_of_ne (h.1 b (List.mem_cons_self b t)) hab) hbx
      simp only [uniqueAdj, if_neg hab]
      exact List.sorted_cons.mpr ⟨hlt, uniqueAdj_sorted (b :: t) h.2⟩

theorem uniqueAdj_const (c : Nat) :
    ∀ l : List Nat, l ≠ [] → (∀ x ∈ l, x = c) → uniqueAdj l = [c]
  | [], h, _ => absurd rfl h
  | [a], _, hall => by simp [uniqueAdj, hall a (by simp)]
  | a :: b :: t, _, hall => by
    have ha : a = c := hall a (by simp)
    have hb : b = c := hall b (by simp)
    subst ha
    have hrec := uniqueAdj_const a (b :: t) (by simp)
      (fun x hx => hall x (List.mem_cons_of_mem a hx))
    simpa [uniqueAdj, hb.symm] using hrec

theorem mem_dedupSorted (x : Nat) (l : List Nat) : x ∈ dedupSorted l ↔ x ∈ l := by
  rw [dedupSorted, mem_uniqueAdj]
  exact (List.perm_insertionSort (· ≤ ·) l).mem_iff

/-- C1: `compute_linked_cells` always produces a strictly ascending,
duplicate-free list of parent-cell indices; an empty candidate list yields an
empty result; a nonempty candidate list whose candidates all map to the same
parent cell yields the one-element list holding that cell. -/
theorem compute_linked_cells_spec (sub_to_parent : Nat → List Nat) (parent_cells : Nat → Nat) :
    (∀ facets : List Nat,
        (compute_linked_cells facets sub_to_parent parent_cells).Sorted (· < ·)
        ∧ (compute_linked_cells facets sub_to_parent parent_cells).Nodup)
    ∧ compute_linked_cells [] sub_to_parent parent_cells = []
    ∧ ∀ (facets : List Nat) (c : Nat), facets ≠ [] →
        (∀ f ∈ facets, parent_cells (sub_to_parent f).headI = c) →
        compute_linked_cells facets sub_to_parent parent_cells = [c] := by
  refine ⟨fun facets => ?_, by simp [compute_linked_cells, dedupSorted, uniqueAdj],
    fun facets c hne hall => ?_⟩
  · have hs := uniqueAdj_sorted _
      (List.sorted_insertionSort (· ≤ ·)
        (facets.map (fun facet => parent_cells (sub_to_parent facet).headI)))
    exact ⟨hs, hs.nodup⟩
  · unfold compute_linked_cells dedupSorted
    apply uniqueAdj_const
    · intro hemp
      have hlen := congrArg List.length hemp
      have : facets.length = 0 := by
        simpa [(List.perm_insertionSort (· ≤ ·) _).length_eq] using hlen
      exact hne (List.eq_nil_of_length_eq_zero this)
    · intro x hx
      have hx' : x ∈ facets.map (fun facet => parent_cells (sub_to_parent facet).headI) :=
        (List.perm_insertionSort (· ≤ ·) _).mem_iff.mp hx
      rcases List.mem_map.mp hx' with ⟨f, hf, rfl⟩
      exact hall f hf

/-- C1 witness: three candidates, two mapping to parent cell 9 and one to 4,
produce the strictly ascending duplicate-free list; two candidates that both
map to parent cell 9 produce the single-element list. -/
theorem compute_linked_cells_spec_witness :
    (([5, 3] : List Nat) ≠ []
      ∧ ∀ f ∈ ([5, 3] : List Nat),
          (fun _ : Nat => 9) (((fun _ : Nat => [2, 0]) f : List Nat).headI) = 9)
    ∧ compute_linked_cells [5, 3] (fun _ => [2, 0]) (fun _ => 9) = [9] := by
  refine ⟨⟨by simp, by decide⟩, ?_⟩
  exact (compute_linked_cells_spec (fun _ => [2, 0]) (fun _ => 9)).2.2 [5, 3] 9
    (by simp) (by decide)

theorem mapToParents_of_valid (sub_to_parent : Nat → List Nat) (parent_cells : Nat → Nat) :
    ∀ l : List Nat, (∀ f ∈ l, (sub_to_parent f).length = 2) →
      mapToParents sub_to_parent parent_cells l
        = some (l.map fun f => parent_cells (sub_to_parent f).headI)
  | [], _ => rfl
  | f :: t, h => by
    rw [mapToParents, if_pos (h f (by simp)),
      mapToParents_of_valid sub_to_parent parent_cells t (fun x hx => h x (by simp [hx]))]
    rfl

theorem mapToParents_of_invalid (sub_to_parent : Nat → List Nat) (parent_cells : Nat → Nat) :
    ∀ l : List Nat, (∃ f ∈ l, (sub_to_parent f).length ≠ 2) →
      mapToParents sub_to_parent parent_cells l = none
  | [], h => by simp at h
  | f :: t, h => by
    by_cases hf : (sub_to_parent f).length = 2
    · have ht : ∃ x ∈ t, (sub_to_parent x).length ≠ 2 := by
        rcases h with ⟨g, hg, hglen⟩
        rcases List.mem_cons.mp hg with rfl | hgt
        · exact absurd hf hglen
        · exact ⟨g, hgt, hglen⟩
      rw [mapToParents, if_pos hf, mapToParents_of_invalid sub_to_parent parent_cells t ht]
      rfl
    · rw [mapToParents, if_neg hf]

/-- C9: under the structural precondition that every candidate facet's entry
in the facet→(cell, local-facet) adjacency has exactly two endpoints, the
assertion of line 36 is unreachable and the checked computation agrees with
`compute_linked_cells`; when some candidate violates the precondition the
computation aborts (models the fatal assertion failure). -/
theorem compute_linked_cells_assertion (facets : List Nat)
    (sub_to_parent : Nat → List Nat) (parent_cells : Nat → Nat) :
    ((∀ f ∈ facets, (sub_to_parent f).length = 2) →
      compute_linked_cells_checked facets sub_to_parent parent_cells
        = some (compute_linked_cells facets sub_to_parent parent_cells))
    ∧ ((∃ f ∈ facets, (sub_to_parent f).length ≠ 2) →
      compute_linked_cells_checked facets sub_to_parent parent_cells = none) := by
  constructor
  · intro h
    rw [compute_linked_cells_checked, mapToParents_of_valid sub_to_parent parent_cells facets h]
    rfl
  · intro h
    rw [compute_linked_cells_checked, mapToParents_of_invalid sub_to_parent parent_cells facets h]
    rfl

/-- C9 witness: with every candidate resolving to a two-endpoint pair the
checked computation succeeds and agrees with the unchecked one. -/
theorem compute_linked_cells_assertion_witness :
    (∀ f ∈ ([0, 1] : List Nat), (((fun _ : Nat => [6, 2]) f : List Nat)).length = 2)
    ∧ compute_linked_cells_checked [0, 1] (fun _ => [6, 2]) (fun c => c + 1)
        = some (compute_linked_cells [0, 1] (fun _ => [6, 2]) (fun c => c + 1)) := by
  refine ⟨by decide, ?_⟩
  exact (compute_linked_cells_assertion [0, 1] (fun _ => [6, 2]) (fun c => c + 1)).1 (by decide)

/-- C3: `coefficients_size` (with the global maximum of the two per-surface
link counts) computes exactly
`3 + numQuadPoints*(2*gdim + dofsPerCell*blockSize*maxLinksGlobal + blockSize)
 + dofsPerCell*blockSize`, and at `(4, 2, 3, 2, 2)` it returns 81. -/
theorem coefficients_size_formula :
    (∀ q g d b m0 m1 : Nat, coefficients_size_surfaces q g d b m0 m1
        = 3 + q * (2 * g + d * b * (max m0 m1) + b) + d * b)
    ∧ coefficients_size 4 2 3 2 2 = 81 :=
  ⟨fun _ _ _ _ _ _ => rfl, rfl⟩

/-- C7 counterexample: with the other four parameters held at 0, the size is
constant (equal to 3) in the number of quadrature points, so the function is
not strictly increasing in each parameter over all argument values. -/
theorem coefficients_size_not_strictly_increasing :
    ¬ (∀ q g d b m : Nat,
        (∀ q2, q < q2 → coefficients_size q g d b m < coefficients_size q2 g d b m)
        ∧ (∀ g2, g < g2 → coefficients_size q g d b m < coefficients_size q g2 d b m)
        ∧ (∀ d2, d < d2 → coefficients_size q g d b m < coefficients_size q g d2 b m)
        ∧ (∀ b2, b < b2 → coefficients_size q g d b m < coefficients_size q g d b2 m)
        ∧ (∀ m2, m < m2 → coefficients_size q g d b m < coefficients_size q g d b m2)) := by
  intro h
  exact absurd ((h 0 0 0 0 0).1 1 Nat.zero_lt_one) (by decide)

/-- C7 amended: `coefficients_size` is strictly increasing in each of its
five parameters with the other four held fixed, provided the number of
quadrature points, the geometric dimension, the dofs per cell and the block
size are all at least 1 (the link count may be any value). -/
theorem coefficients_size_strictly_increasing (q g d b m : Nat)
    (hq : 1 ≤ q) (hg : 1 ≤ g) (hd : 1 ≤ d) (hb : 1 ≤ b) :
    (∀ q2, q < q2 → coefficients_size q g d b m < coefficients_size q2 g d b m)
    ∧ (∀ g2, g < g2 → coefficients_size q g d b m < coefficients_size q g2 d b m)
    ∧ (∀ d2, d < d2 → coefficients_size q g d b m < coefficients_size q g d2 b m)
    ∧ (∀ b2, b < b2 → coefficients_size q g d b m < coefficients_size q g d b2 m)
    ∧ (∀ m2, m < m2 → coefficients_size q g d b m < coefficients_size q g d b m2) := by
  refine ⟨fun q2 h => ?_, fun g2 h => ?_, fun d2 h => ?_, fun b2 h => ?_, fun m2 h => ?_⟩
  · have hC : 0 < 2 * g + d * b * m + b := by omega
    have := Nat.mul_lt_mul_of_lt_of_le h (le_refl (2 * g + d * b * m + b)) hC
    unfold coefficients_size
    omega
  · have hmul : q * (2 * g + d * b * m + b) < q * (2 * g2 + d * b * m + b) :=
      Nat.mul_lt_mul_of_le_of_lt (le_refl q) (by omega) hq
    unfold coefficients_size
    omega
  · have hdb : d * b < d2 * b := Nat.mul_lt_mul_of_lt_of_le h (le_refl b) hb
    have hdbm : d * b * m ≤ d2 * b * m := Nat.mul_le_mul_right m (le_of_lt hdb)
    have hmul : q * (2 * g + d * b * m + b) ≤ q * (2 * g + d2 * b * m + b) :=
      Nat.mul_le_mul_left q (by omega)
    unfold coefficients_size
    omega
  · have hdb : d * b < d * b2 := Nat.mul_lt_mul_of_le_of_lt (le_refl d) h hd
    have hdbm : d * b * m ≤ d * b2 * m := Nat.mul_le_mul_right m (le_of_lt hdb)
    have hmul : q * (2 * g + d * b * m + b) ≤ q * (2 * g + d * b2 * m + b2) :=
      Nat.mul_le_mul_left q (by omega)
    unfold coefficients_size
    omega
  · have hdb : 0 < d * b := Nat.mul_pos hd hb
    have hdbm : d * b * m < d * b * m2 := Nat.mul_lt_mul_of_le_of_lt (le_refl (d * b)) h hdb
    have hmul : q * (2 * g + d * b * m + b) < q * (2 * g + d * b * m2 + b) :=
      Nat.mul_lt_mul_of_le_of_lt (le_refl q) (by omega) hq
    unfold coefficients_size
    omega

/-- C7 amended witness: at `(1, 1, 1, 1, 0)` the size strictly grows when the
number of quadrature points grows to 2. -/
theorem coefficients_size_strictly_increasing_witness :
    ((1 : Nat) ≤ 1 ∧ (1 : Nat) < 2)
    ∧ coefficients_size 1 1 1 1 0 < coefficients_size 2 1 1 1 0 := by
  refine ⟨by decide, ?_⟩
  exact (coefficients_size_strictly_increasing 1 1 1 1 0 (by decide) (by decide) (by decide)
    (by decide)).1 2 (by decide)

theorem addEntry_apply (b : Nat → Int) (pos : Nat) (v : Int) (idx : Nat) :
    addEntry b pos v idx = b idx + if idx = pos then v else 0 := by
  unfold addEntry
  by_cases h : idx = pos <;> simp [h]

theorem foldl_add_delta {α : Type} (f : (Nat → Int) → α → (Nat → Int)) (δ : α → Nat → Int)
    (hf : ∀ bb a idx, f bb a idx = bb idx + δ a idx) :
    ∀ (L : List α) (b : Nat → Int) (idx : Nat),
      L.foldl f b idx = b idx + (L.map (fun a => δ a idx)).sum
  | [], b, idx => by simp
  | a :: L, b, idx => by
    rw [List.foldl_cons, foldl_add_delta f δ hf L (f b a) idx, hf b a idx]
    simp [add_assoc]

theorem scatterBlock_apply (bs ndofs : Nat) (dofs : List Nat) (vals : Nat → Int)
    (b : Nat → Int) (idx : Nat) :
    scatterBlock bs ndofs dofs vals b idx = b idx + blockDelta bs ndofs dofs vals idx := by
  unfold scatterBlock blockDelta
  have hf : ∀ (bb : Nat → Int) (j idx2 : Nat),
      (List.range bs).foldl
        (fun b2 k => addEntry b2 (bs * dofs.getD j 0 + k) (vals (bs * j + k))) bb idx2
      = bb idx2 + ((List.range bs).map (fun k =>
          if idx2 = bs * dofs.getD j 0 + k then vals (bs * j + k) else 0)).sum := by
    intro bb j idx2
    exact foldl_add_delta _ _
      (fun bb2 k idx3 => addEntry_apply bb2 (bs * dofs.getD j 0 + k) (vals (bs * j + k)) idx3)
      _ _ _
  exact foldl_add_delta _ _ hf _ _ _

theorem assembleVectorFacet_apply (st : ContactSide) (kb : Nat → Nat → Nat → Int)
    (b : Nat → Int) (i idx : Nat) :
    assembleVectorFacet st kb b i idx = b idx + facetDelta st kb i idx := by
  unfold assembleVectorFacet facetDelta
  have h1 : (List.range (linkedCellsAt st i).length).foldl
      (fun b1 l =>
        scatterBlock st.bs st.ndofs (st.dofmap ((linkedCellsAt st i).getD l 0)) (kb i (l + 1)) b1)
      (scatterBlock st.bs st.ndofs (st.dofmap (facetCell st i)) (kb i 0) b) idx
      = (scatterBlock st.bs st.ndofs (st.dofmap (facetCell st i)) (kb i 0) b) idx
        + ((List.range (linkedCellsAt st i).length).map (fun l =>
            blockDelta st.bs st.ndofs (st.dofmap ((linkedCellsAt st i).getD l 0))
              (kb i (l + 1)) idx)).sum :=
    foldl_add_delta _ _
      (fun bb l idx2 => scatterBlock_apply st.bs st.ndofs
        (st.dofmap ((linkedCellsAt st i).getD l 0)) (kb i (l + 1)) bb idx2)
      _ _ _
  rw [h1, scatterBlock_apply]
  ring

theorem assemble_vector_apply (st : ContactSide) (kb : Nat → Nat → Nat → Int)
    (order : List Nat) (b : Nat → Int) (idx : Nat) :
    assemble_vector st kb order b idx
      = b idx + (order.map (fun i => facetDelta st kb i idx)).sum :=
  foldl_add_delta _ _ (fun bb i idx2 => assembleVectorFacet_apply st kb bb i idx2) order b idx

theorem bs_index_inj (bs a c k k2 : Nat) (hk : k < bs) (hk2 : k2 < bs)
    (h : bs * a + k = bs * c + k2) : a = c ∧ k = k2 := by
  have h1 : (bs * a + k) % bs = k := by rw [Nat.mul_add_mod]; exact Nat.mod_eq_of_lt hk
  have h2 : (bs * c + k2) % bs = k2 := by rw [Nat.mul_add_mod]; exact Nat.mod_eq_of_lt hk2
  have hkk : k = k2 := by rw [← h1, h, h2]
  subst hkk
  have hmul : bs * a = bs * c := by omega
  exact ⟨Nat.eq_of_mul_eq_mul_left (Nat.lt_of_le_of_lt (Nat.zero_le k) hk) hmul, rfl⟩

theorem sum_map_zero {α : Type} (L : List α) (f : α → Int) (h : ∀ a ∈ L, f a = 0) :
    (L.map f).sum = 0 := by
  apply List.sum_eq_zero
  intro x hx
  rcases List.mem_map.mp hx with ⟨a, ha, rfl⟩
  exact h a ha

theorem sum_range_pick (k : Nat) (v : Nat → Int) :
    ∀ n, k < n → ((List.range n).map (fun j => if j = k then v j else 0)).sum = v k
  | 0, h => absurd h (by omega)
  | n + 1, h => by
    rw [List.range_succ, List.map_append, List.sum_append]
    by_cases hkn : k = n
    · subst hkn
      rw [sum_map_zero _ _ (fun j hj => if_neg (Nat.ne_of_lt (List.mem_range.mp hj)))]
      simp
    · have hkn2 : k < n := by omega
      have hnk : n ≠ k := fun hEq => hkn hEq.symm
      rw [sum_range_pick k v n hkn2]
      simp [hnk]

theorem sum_map_add {α : Type} (f g : α → Int) :
    ∀ L : List α, (L.map (fun a => f a + g a)).sum = (L.map f).sum + (L.map g).sum
  | [] => rfl
  | a :: L => by
    simp only [List.map_cons, List.sum_cons, sum_map_add f g L]
    ring

theorem sum_filter_of_zero {α : Type} (p : α → Bool) (f : α → Int) :
    ∀ L : List α, (∀ a ∈ L, p a = false → f a = 0) →
      ((L.filter p).map f).sum = (L.map f).sum
  | [], _ => rfl
  | a :: L, h => by
    by_cases hpa : p a = true
    · rw [List.filter_cons_of_pos hpa, List.map_cons, List.sum_cons, List.map_cons,
        List.sum_cons, sum_filter_of_zero p f L (fun x hx => h x (List.mem_cons_of_mem a hx))]
    · have hpa2 : p a = false := by simpa using hpa
      rw [List.filter_cons_of_neg (by simp [hpa2]), List.map_cons, List.sum_cons,
        sum_filter_of_zero p f L (fun x hx => h x (List.mem_cons_of_mem a hx)),
        h a (List.mem_cons_self a L) hpa2]
      ring

theorem blockDelta_at (bs ndofs : Nat) (dofs : List Nat) (vals : Nat → Int)
    (dof k : Nat) (hk : k < bs) :
    blockDelta bs ndofs dofs vals (bs * dof + k)
      = ((List.range ndofs).map (fun j =>
          if dofs.getD j 0 = dof then vals (bs * j + k) else 0)).sum := by
  unfold blockDelta
  apply congrArg List.sum
  apply List.map_congr_left
  intro j _
  by_cases hj : dofs.getD j 0 = dof
  · rw [hj, if_pos rfl, ← sum_range_pick k (fun k2 => vals (bs * j + k2)) bs hk]
    apply congrArg List.sum
    apply List.map_congr_left
    intro k2 _
    have hiff : bs * dof + k = bs * dof + k2 ↔ k2 = k :=
      ⟨fun hh => (Nat.add_left_cancel hh).symm, fun hh => by rw [hh]⟩
    simp only [hiff]
  · rw [if_neg hj]
    apply sum_map_zero
    intro k2 hk2
    rw [if_neg]
    intro hEq
    exact hj ((bs_index_inj bs dof (dofs.getD j 0) k k2 hk (List.mem_range.mp hk2) hEq).1.symm)

theorem blockDelta_eq_zero (bs ndofs : Nat) (dofs : List Nat) (vals : Nat → Int) (idx : Nat)
    (h : ∀ j < ndofs, ∀ k < bs, idx ≠ bs * dofs.getD j 0 + k) :
    blockDelta bs ndofs dofs vals idx = 0 := by
  unfold blockDelta
  apply sum_map_zero
  intro j hj
  apply sum_map_zero
  intro k hk
  rw [if_neg (h j (List.mem_range.mp hj) k (List.mem_range.mp hk))]

theorem facetDelta_at (st : ContactSide) (kb : Nat → Nat → Nat → Int) (i dof k : Nat)
    (hk : k < st.bs) :
    facetDelta st kb i (st.bs * dof + k)
      = selfContrib st kb i dof k + linkedContrib st kb i dof k := by
  unfold facetDelta selfContrib linkedContrib
  rw [blockDelta_at _ _ _ _ _ _ hk]
  apply congrArg (_ + ·)
  apply congrArg List.sum
  apply List.map_congr_left
  intro l _
  exact blockDelta_at _ _ _ _ _ _ hk

theorem selfContrib_eq_zero (st : ContactSide) (kb : Nat → Nat → Nat → Int) (i dof k : Nat)
    (hdm : ∀ c, (st.dofmap c).length = st.ndofs)
    (h : dof ∉ st.dofmap (facetCell st i)) :
    selfContrib st kb i dof k = 0 := by
  apply sum_map_zero
  intro j hj
  rw [if_neg]
  intro hEq
  apply h
  rw [← hEq]
  have hlen : j < (st.dofmap (facetCell st i)).length := by
    rw [hdm]; exact List.mem_range.mp hj
  rw [List.getD_eq_getElem _ 0 hlen]
  exact List.getElem_mem hlen

theorem linkedContrib_eq_zero (st : ContactSide) (kb : Nat → Nat → Nat → Int) (i dof k : Nat)
    (hdm : ∀ c, (st.dofmap c).length = st.ndofs)
    (h : ∀ l ∈ linkedCellsAt st i, dof ∉ st.dofmap l) :
    linkedContrib st kb i dof k = 0 := by
  apply sum_map_zero
  intro l hl
  apply sum_map_zero
  intro j hj
  rw [if_neg]
  intro hEq
  have hlmem : (linkedCellsAt st i).getD l 0 ∈ linkedCellsAt st i := by
    have hll : l < (linkedCellsAt st i).length := List.mem_range.mp hl
    rw [List.getD_eq_getElem _ 0 hll]
    exact List.getElem_mem hll
  apply h _ hlmem
  rw [← hEq]
  have hlen : j < (st.dofmap ((linkedCellsAt st i).getD l 0)).length := by
    rw [hdm]; exact List.mem_range.mp hj
  rw [List.getD_eq_getElem _ 0 hlen]
  exact List.getElem_mem hlen

/-- C2: after `assemble_vector` processes the facets listed in `order`, the
value of the global vector at entry `bs * dof + k` equals its initial value
plus the sum of the self-block (`bes[0]`) contributions of the facets whose
owning cell's dof map holds `dof`, plus the sum of the linked-block
(`bes[l + 1]`) contributions of the facets whose linked-cell set holds a cell
whose dof map holds `dof`; and the assembled vector is invariant under any
permutation of the facet processing order. -/
theorem assemble_vector_accumulation (st : ContactSide) (kb : Nat → Nat → Nat → Int)
    (order : List Nat) (b : Nat → Int) (dof k : Nat)
    (hk : k < st.bs) (hdm : ∀ c, (st.dofmap c).length = st.ndofs) :
    (assemble_vector st kb order b (st.bs * dof + k)
      = b (st.bs * dof + k)
        + ((order.filter (fun i => decide (dof ∈ st.dofmap (facetCell st i)))).map
            (fun i => selfContrib st kb i dof k)).sum
        + ((order.filter (fun i =>
              (linkedCellsAt st i).any (fun l => decide (dof ∈ st.dofmap l)))).map
            (fun i => linkedContrib st kb i dof k)).sum)
    ∧ ∀ order2, List.Perm order order2 →
        ∀ idx, assemble_vector st kb order b idx = assemble_vector st kb order2 b idx := by
  constructor
  · rw [assemble_vector_apply]
    have hmap : order.map (fun i => facetDelta st kb i (st.bs * dof + k))
        = order.map (fun i => selfContrib st kb i dof k + linkedContrib st kb i dof k) :=
      List.map_congr_left (fun i _ => facetDelta_at st kb i dof k hk)
    rw [hmap, sum_map_add,
      sum_filter_of_zero _ _ order (fun i _ hp =>
        selfContrib_eq_zero st kb i dof k hdm (of_decide_eq_false hp)),
      sum_filter_of_zero _ _ order (fun i _ hp =>
        linkedContrib_eq_zero st kb i dof k hdm (fun l hl => by
          have h2 := List.any_eq_false.mp hp l hl
          simpa using h2))]
    ring
  · intro order2 hperm idx
    rw [assemble_vector_apply, assemble_vector_apply, (hperm.map _).sum_eq]

/-- C2 witness: the concrete two-facet side, at dof 10 (owned by the linked
parent cell 5) and component 0. -/
theorem assemble_vector_accumulation_witness :
    ((0 : Nat) < exampleSide.bs ∧ ∀ c, (exampleSide.dofmap c).length = exampleSide.ndofs)
    ∧ ((assemble_vector exampleSide exampleKb [0, 1] (fun _ => 0) (exampleSide.bs * 10 + 0)
        = (fun _ : Nat => (0 : Int)) (exampleSide.bs * 10 + 0)
          + ((([0, 1] : List Nat).filter
              (fun i => decide (10 ∈ exampleSide.dofmap (facetCell exampleSide i)))).map
              (fun i => selfContrib exampleSide exampleKb i 10 0)).sum
          + ((([0, 1] : List Nat).filter (fun i =>
                (linkedCellsAt exampleSide i).any
                  (fun l => decide (10 ∈ exampleSide.dofmap l)))).map
              (fun i => linkedContrib exampleSide exampleKb i 10 0)).sum)
      ∧ ∀ order2, List.Perm [0, 1] order2 →
          ∀ idx, assemble_vector exampleSide exampleKb [0, 1] (fun _ => 0) idx
            = assemble_vector exampleSide exampleKb order2 (fun _ => 0) idx) :=
  ⟨⟨by decide, fun _ => rfl⟩,
    assemble_vector_accumulation exampleSide exampleKb [0, 1] (fun _ => 0) 10 0
      (by decide) (fun _ => rfl)⟩

/-- C10: `assemble_vector` leaves unchanged every entry of the global vector
whose index is not of the form `bs * dof + k` (`k < bs`) for a dof of some
processed facet's owning cell or of one of that facet's linked cells. -/
theorem assemble_vector_frame (st : ContactSide) (kb : Nat → Nat → Nat → Int)
    (order : List Nat) (b : Nat → Int) (idx : Nat)
    (hdm : ∀ c, (st.dofmap c).length = st.ndofs)
    (h : ¬ touchedIndex st order idx) :
    assemble_vector st kb order b idx = b idx := by
  rw [assemble_vector_apply]
  have hz : (order.map (fun i => facetDelta st kb i idx)).sum = 0 := by
    apply sum_map_zero
    intro i hi
    unfold facetDelta
    have hself : blockDelta st.bs st.ndofs (st.dofmap (facetCell st i)) (kb i 0) idx = 0 := by
      apply blockDelta_eq_zero
      intro j hj k hk hEq
      apply h
      refine ⟨i, hi, (st.dofmap (facetCell st i)).getD j 0, k, hk, hEq, Or.inl ?_⟩
      have hlen : j < (st.dofmap (facetCell st i)).length := by rw [hdm]; exact hj
      rw [List.getD_eq_getElem _ 0 hlen]
      exact List.getElem_mem hlen
    have hlink : ((List.range (linkedCellsAt st i).length).map (fun l =>
        blockDelta st.bs st.ndofs (st.dofmap ((linkedCellsAt st i).getD l 0))
          (kb i (l + 1)) idx)).sum = 0 := by
      apply sum_map_zero
      intro l hl
      apply blockDelta_eq_zero
      intro j hj k hk hEq
      apply h
      refine ⟨i, hi, (st.dofmap ((linkedCellsAt st i).getD l 0)).getD j 0, k, hk, hEq,
        Or.inr ?_⟩
      have hll : l < (linkedCellsAt st i).length := List.mem_range.mp hl
      have hlmem : (linkedCellsAt st i).getD l 0 ∈ linkedCellsAt st i := by
        rw [List.getD_eq_getElem _ 0 hll]
        exact List.getElem_mem hll
      have hlen : j < (st.dofmap ((linkedCellsAt st i).getD l 0)).length := by
        rw [hdm]; exact hj
      refine ⟨(linkedCellsAt st i).getD l 0, hlmem, ?_⟩
      rw [List.getD_eq_getElem _ 0 hlen]
      exact List.getElem_mem hlen
    rw [hself, hlink, add_zero]
  rw [hz, add_zero]

/-- C10 witness: with block size 1, global index 7 is owned by no active
cell (dofs 0-3) and no linked cell (dofs 10-11), so entry 7 keeps its initial
value. -/
theorem assemble_vector_frame_witness :
    ((∀ c, (exampleSide.dofmap c).length = exampleSide.ndofs)
      ∧ ¬ touchedIndex exampleSide [0, 1] 7)
    ∧ assemble_vector exampleSide exampleKb [0, 1] (fun _ => 0) 7
        = (fun _ : Nat => (0 : Int)) 7 := by
  have hnt : ¬ touchedIndex exampleSide [0, 1] 7 := by
    rintro ⟨i, hi, dof, k, hk, hEq, hOr⟩
    have hb : exampleSide.bs = 1 := rfl
    rw [hb] at hk hEq
    have hdof : dof = 7 := by omega
    subst hdof
    have hfin : ∀ i ∈ ([0, 1] : List Nat),
        ¬ (7 ∈ exampleSide.dofmap (facetCell exampleSide i)
          ∨ ∃ l ∈ linkedCellsAt exampleSide i, 7 ∈ exampleSide.dofmap l) := by decide
    exact hfin i hi hOr
  exact ⟨⟨fun _ => rfl, hnt⟩,
    assemble_vector_frame exampleSide exampleKb [0, 1] (fun _ => 0) 7 (fun _ => rfl) hnt⟩

theorem mem_crossPairs (rows cols : List Nat) (a c : Nat) :
    (a, c) ∈ crossPairs rows cols ↔ a ∈ rows ∧ c ∈ cols := by
  unfold crossPairs
  constructor
  · intro h
    rcases List.mem_flatMap.mp h with ⟨r, hr, hmem⟩
    rcases List.mem_map.mp hmem with ⟨c2, hc2, hEq⟩
    cases hEq
    exact ⟨hr, hc2⟩
  · intro ⟨ha, hc⟩
    exact List.mem_flatMap.mpr ⟨a, ha, List.mem_map.mpr ⟨c, hc, rfl⟩⟩

/-- C4: for every boundary cell on either surface and every cell in its
linked-cell set, the sparsity pattern built by `create_petsc_matrix`
contains all (cell-dof, linked-dof) pairs and all (linked-dof, cell-dof)
pairs: the cross-surface coupling entries are inserted symmetrically. -/
theorem create_petsc_matrix_symmetric (sd : SparsityData) (base : List (Nat × Nat))
    (s i : Nat) (hs : s < 2) (hi : i < (sd.pairs s).length)
    (l : Nat) (hl : l ∈ linkedCellsSurf sd s i)
    (r : Nat) (hr : r ∈ sd.dofmap (surfCell sd s i))
    (q : Nat) (hq : q ∈ sd.dofmap l) :
    (r, q) ∈ patternEntries sd base ∧ (q, r) ∈ patternEntries sd base := by
  have hq2 : q ∈ linkedDofs sd s i := by
    rw [linkedDofs, mem_dedupSorted]
    rw [linkedCellsSurf, compute_linked_cells, mem_dedupSorted] at hl
    rcases List.mem_map.mp hl with ⟨link, hlink, hEq⟩
    refine List.mem_flatMap.mpr ⟨link, hlink, ?_⟩
    rw [hEq]
    exact hq
  have hins : ∀ p ∈ facetInserts sd s i, p ∈ patternEntries sd base := by
    intro p hp
    rw [patternEntries]
    apply List.mem_append_right
    rw [insertedPairs]
    refine List.mem_flatMap.mpr ⟨s, ?_, ?_⟩
    · interval_cases s <;> simp
    · exact List.mem_flatMap.mpr ⟨i, List.mem_range.mpr hi, hp⟩
  constructor
  · exact hins _ (List.mem_append_left _ ((mem_crossPairs _ _ r q).mpr ⟨hr, hq2⟩))
  · exact hins _ (List.mem_append_right _ ((mem_crossPairs _ _ q r).mpr ⟨hq2, hr⟩))

/-- C4 witness: the single facet of surface 0 is owned by cell 0 (dofs 0, 1)
and linked to parent cell 5 (dofs 10, 11); both (0, 10) and (10, 0) land in
the pattern. -/
theorem create_petsc_matrix_symmetric_witness :
    ((0 : Nat) < 2 ∧ (0 : Nat) < (exampleSparsity.pairs 0).length
      ∧ 5 ∈ linkedCellsSurf exampleSparsity 0 0
      ∧ 0 ∈ exampleSparsity.dofmap (surfCell exampleSparsity 0 0)
      ∧ 10 ∈ exampleSparsity.dofmap 5)
    ∧ ((0, 10) ∈ patternEntries exampleSparsity [] ∧ (10, 0) ∈ patternEntries exampleSparsity []) :=
  ⟨⟨by decide, by decide, by decide, by decide, by decide⟩,
    create_petsc_matrix_symmetric exampleSparsity [] 0 0 (by decide) (by decide)
      5 (by decide) 0 (by decide) 10 (by decide)⟩

/-- C5: for a facet whose resolved linked-cell set is empty,
`assemble_matrix` issues exactly one `mat_set` call — for the self×self
block with the block-0 values — and no cross-term calls. -/
theorem assemble_matrix_no_links (st : ContactSide) (kb : Nat → Nat → Nat → Int) (i : Nat)
    (h : linkedCellsAt st i = []) :
    facetMatCalls st kb i
      = [(st.dofmap (facetCell st i), st.dofmap (facetCell st i), kb i 0)] := by
  unfold facetMatCalls
  rw [h]
  simp

/-- C5 witness: facet 1 of the concrete side has no candidates, so its
linked-cell set is empty and exactly the single self×self call is issued. -/
theorem assemble_matrix_no_links_witness :
    linkedCellsAt exampleSide 1 = []
    ∧ facetMatCalls exampleSide exampleKb 1
      = [(exampleSide.dofmap (facetCell exampleSide 1),
          exampleSide.dofmap (facetCell exampleSide 1), exampleKb 1 0)] :=
  ⟨by decide, assemble_matrix_no_links exampleSide exampleKb 1 (by decide)⟩

/-- C6: the zero-filling step executed immediately before each kernel
invocation of `assemble_matrix` zeroes exactly the blocks 0 through
`3 * numLinked`: every block index in that range holds the zero block
afterwards, and every block index beyond it is left untouched. -/
theorem zeroBlocks_spec (Aes : Nat → Nat → Int) (numLinked : Nat) :
    (∀ m, m ≤ 3 * numLinked → zeroBlocks Aes numLinked m = fun _ => 0)
    ∧ (∀ m, 3 * numLinked < m → zeroBlocks Aes numLinked m = Aes m) := by
  induction numLinked with
  | zero =>
    constructor
    · intro m hm
      have hm0 : m = 0 := by omega
      subst hm0
      simp [zeroBlocks, setBlockZero]
    · intro m hm
      have hm0 : m ≠ 0 := by omega
      simp [zeroBlocks, setBlockZero, hm0]
  | succ n ih =>
    have hstep : zeroBlocks Aes (n + 1)
        = setBlockZero (setBlockZero (setBlockZero (zeroBlocks Aes n)
            (3 * n + 1)) (3 * n + 2)) (3 * n + 3) := by
      unfold zeroBlocks
      rw [List.range_succ, List.foldl_append]
      rfl
    constructor
    · intro m hm
      rw [hstep]
      by_cases h3 : m = 3 * n + 3
      · simp [setBlockZero, h3]
      · by_cases h2 : m = 3 * n + 2
        · simp [setBlockZero, h2, h3]
        · by_cases h1 : m = 3 * n + 1
          · simp [setBlockZero, h1, h2, h3]
          · have hm2 : m ≤ 3 * n := by omega
            simp only [setBlockZero, if_neg h3, if_neg h2, if_neg h1]
            exact ih.1 m hm2
    · intro m hm
      rw [hstep]
      have h1 : m ≠ 3 * n + 1 := by omega
      have h2 : m ≠ 3 * n + 2 := by omega
      have h3 : m ≠ 3 * n + 3 := by omega
      simp only [setBlockZero, if_neg h3, if_neg h2, if_neg h1]
      exact ih.2 m (by omega)

/-- C6 witness: with one linked cell, block 2 (inside the active range
0..3) becomes the zero block while block 7 keeps its stale values. -/
theorem zeroBlocks_spec_witness :
    ((2 : Nat) ≤ 3 * 1 ∧ 3 * 1 < 7)
    ∧ zeroBlocks (fun _ _ => 4) 1 2 = (fun _ => (0 : Int))
    ∧ zeroBlocks (fun _ _ => 4) 1 7 = (fun _ _ => (4 : Int)) 7 := by
  refine ⟨by decide, ?_, ?_⟩
  · exact (zeroBlocks_spec (fun _ _ => 4) 1).1 2 (by decide)
  · exact (zeroBlocks_spec (fun _ _ => 4) 1).2 7 (by decide)

/-- C8: every kernel invocation issued by `assemble_matrix` and by
`assemble_vector` passes the neutral orientation/permutation indicator 0,
for every facet. -/
theorem kernel_perm_neutral (st : ContactSide) (cstride : Nat) :
    (∀ c ∈ matrixKernelCalls st cstride, c.perm = 0)
    ∧ (∀ c ∈ vectorKernelCalls st cstride, c.perm = 0) := by
  constructor <;>
  · intro c hc
    rcases List.mem_map.mp hc with ⟨i, _, rfl⟩
    rfl

/-- C8 witness: the first kernel call of the matrix assembly over the
concrete side carries the neutral indicator. -/
theorem kernel_perm_neutral_witness :
    (⟨0, 0, 0, permValue, 1⟩ : KernelCall) ∈ matrixKernelCalls exampleSide 4
    ∧ (⟨0, 0, 0, permValue, 1⟩ : KernelCall).perm = 0 :=
  ⟨by decide, (kernel_perm_neutral exampleSide 4).1 _ (by decide)⟩
